import Mathlib

/-!
Verification development for the rust-derive-analysis repository.

The repository is a Rust pipeline that discovers repositories via the GitHub
search API (src/github.rs), keeps a bounded on-disk cache of shallow clones
(src/repo_cache.rs), scans Rust sources for `derive` attribute annotations
with a two-tier scanner (src/parser.rs), and aggregates findings into summary
artifacts (src/persistence.rs).

This file gives a shallow embedding of those components and proves/refutes
the frozen claims about them.  Conventions of the embedding:

* Rust `String`/`&str` values are Lean `String`s; the character-level
  operations (`split`, `trim`, `lines`, substring search, byte length) are
  re-implemented over `List Char` so everything reduces in the kernel.
  Unicode-sensitive Rust predicates (`char::is_whitespace`,
  `char::is_alphanumeric`) are modelled by Lean's ASCII versions; every
  concrete input used below is ASCII, where the two agree.
* The external `syn` parser is not part of this repository; the outcome of
  `panic::catch_unwind(|| syn::parse_file(content))` is modelled by an
  explicit `ParseOutcome` oracle value (success with an item list, reported
  syntax error, or panic).  The repository's own traversal of the resulting
  AST (`extract_derives_from_item` / `_from_attrs` / `parse_derive_tokens`)
  is embedded faithfully.
* `usize` arithmetic is `Nat`; `f64` (only used for cache sizes in GB) is
  modelled by `ℚ` — no claim depends on floating-point rounding.
* Stateful components (`RepositoryCache`) are explicit state-passing
  functions; `while` loops become fuelled recursions where `none` means the
  loop did not terminate within the given fuel.
* `std::collections::HashMap` iteration order is unspecified (randomized
  hashing).  It is modelled by an association list together with an
  arbitrary selector function constrained only by `validSelector`
  (exactly the guarantee `HashMap::iter().next()` gives).
-/

namespace DeriveAnalysis

/-- `DeriveStatement` from src/main.rs (the FindingRecord of the spec). -/
structure DeriveStatement where
  repository : String
  file_path : String
  line_number : Nat
  derives : List String
  full_line : String
deriving Repr, DecidableEq

/-- `RepositoryInfo` from src/main.rs. -/
structure RepositoryInfo where
  name : String
  full_name : String
  clone_url : String
  language : Option String
  stars : Nat
deriving Repr, DecidableEq

/-! ### Character-list models of the Rust string primitives used by the scanner -/

/-- Rust `str::split(sep)` for a one-character separator: the fragments
between separators, empty fragments kept (`n` separators give `n+1` parts). -/
def splitOnChar (sep : Char) : List Char → List (List Char)
  | [] => [[]]
  | c :: rest =>
    if c = sep then [] :: splitOnChar sep rest
    else
      match splitOnChar sep rest with
      | [] => [[c]]
      | p :: ps => (c :: p) :: ps

/-- Rust `str::trim` (whitespace restricted to ASCII, see header). -/
def trimChars (l : List Char) : List Char :=
  ((l.dropWhile Char.isWhitespace).reverse.dropWhile Char.isWhitespace).reverse

/-- Drop the last `n` characters (`&s[..s.len()-n]` for ASCII suffixes). -/
def dropRightN (l : List Char) (n : Nat) : List Char :=
  l.take (l.length - n)

/-- Rust `str::contains(sub)`: some contiguous sublist equals `sub`. -/
def hasSubstring (sub : List Char) : List Char → Bool
  | [] => sub.isEmpty
  | c :: rest => sub.isPrefixOf (c :: rest) || hasSubstring sub rest

/-- Helper for `countMatches`: scan one character at a time; after a match,
skip the remaining `sub.length - 1` characters of the matched occurrence so
matches never overlap. -/
def countMatchesAux (sub : List Char) (skip : Nat) : List Char → Nat
  | [] => 0
  | c :: rest =>
    match skip with
    | s + 1 => countMatchesAux sub s rest
    | 0 =>
      if sub.isPrefixOf (c :: rest) then
        1 + countMatchesAux sub (sub.length - 1) rest
      else
        countMatchesAux sub 0 rest

/-- Rust `str::matches(sub).count()` — number of non-overlapping matches,
scanning left to right.  All call sites use a non-empty pattern; the empty
pattern is mapped to 0 (never exercised). -/
def countMatches (sub : List Char) (l : List Char) : Nat :=
  if sub.isEmpty then 0 else countMatchesAux sub 0 l

/-- Strip one trailing carriage return (the `\r` of a `\r\n` line ending). -/
def stripTrailingCR (l : List Char) : List Char :=
  if l.getLast? = some '\r' then l.dropLast else l

/-- Rust `str::lines()`: split on `\n`, strip a `\r` left at the end of each
newline-terminated part, and do not produce a final empty line for a
trailing line ending. -/
def rustLines (content : String) : List (List Char) :=
  let parts := splitOnChar '\n' content.toList
  let body := parts.dropLast.map stripTrailingCR
  match parts.getLast? with
  | some [] => body
  | some lastPart => body ++ [lastPart]
  | none => body

/-! ### The scanner (src/parser.rs) -/

/-- `RustParser::extract_derives_text_based` (src/parser.rs:117-149):
the text tier.  A line whose trimmed text starts with `#[derive(` and ends
with `)]` contributes one finding; the interior is split on commas, trimmed,
empties dropped. -/
def extract_derives_text_based (content repository file_path : String) :
    List DeriveStatement :=
  (rustLines content).enum.flatMap (fun p =>
    let trimmed := trimChars p.2
    if "#[derive(".toList.isPrefixOf trimmed && ")]".toList.isSuffixOf trimmed then
      let derive_content := dropRightN (trimmed.drop 9) 2
      let derive_list :=
        (((splitOnChar ',' derive_content).map trimChars).filter
          (fun s => !s.isEmpty)).map String.mk
      if derive_list.isEmpty then []
      else
        [{ repository := repository, file_path := file_path,
           line_number := p.1 + 1, derives := derive_list,
           full_line := String.mk p.2 }]
    else [])

/-- `RustParser::parse_derive_tokens` (src/parser.rs:108-115): split the
rendered token text on commas, trim, keep tokens made of alphanumerics,
underscore and colon. -/
def parse_derive_tokens (tokens : String) : List String :=
  (((splitOnChar ',' tokens.toList).map trimChars).filter
    (fun s => !s.isEmpty && s.all (fun c => c.isAlphanum || c == '_' || c == ':'))).map
    String.mk

/-- Helper for `find_line_number`: first 1-based index of a line containing
`derive`, defaulting to 1. -/
def firstDeriveLineAux : List (Nat × List Char) → Nat
  | [] => 1
  | (i, l) :: rest =>
    if hasSubstring "derive".toList l then i + 1 else firstDeriveLineAux rest

/-- `RustParser::find_line_number` (src/parser.rs:151-159).  NOTE: the source
ignores its `_target` argument and returns the first line of the whole file
that contains the substring `derive` (or 1 when there is none). -/
def find_line_number (content : String) (_target : String) : Nat :=
  firstDeriveLineAux (rustLines content).enum

/-- `RustParser::get_line_at_number` (src/parser.rs:161-167). -/
def get_line_at_number (content : String) (line_number : Nat) : String :=
  String.mk ((rustLines content).getD (line_number - 1) [])

/-- The part of a `syn::Meta` the scanner inspects: `Meta::List` carries the
rendered token text (`tokens.to_string()`); everything else is collapsed. -/
inductive SynMeta where
  | list (tokens : String)
  | other
deriving Repr, DecidableEq

/-- The part of a `syn::Attribute` the scanner inspects: the path (compared
against the single identifier `derive`), the meta, and the rendered
`to_token_stream().to_string()` text (passed to `find_line_number`, which
ignores it). -/
structure SynAttribute where
  path : String
  meta : SynMeta
  rendered : String
deriving Repr, DecidableEq

/-- The part of a `syn::Item` the scanner inspects: struct/enum/union items
carry attribute lists; every other item kind is skipped. -/
inductive SynItem where
  | structItem (attrs : List SynAttribute)
  | enumItem (attrs : List SynAttribute)
  | unionItem (attrs : List SynAttribute)
  | otherItem
deriving Repr, DecidableEq

/-- `RustParser::extract_derives_from_attrs` (src/parser.rs:70-106). -/
def extract_derives_from_attrs
    (attrs : List SynAttribute) (repository file_path content : String) :
    List DeriveStatement :=
  attrs.flatMap (fun attr =>
    if attr.path = "derive" then
      match attr.meta with
      | SynMeta.list tokens =>
        let derive_list := parse_derive_tokens tokens
        if derive_list.isEmpty then []
        else
          let line_number := find_line_number content attr.rendered
          let full_line := get_line_at_number content line_number
          [{ repository := repository, file_path := file_path,
             line_number := line_number, derives := derive_list,
             full_line := full_line }]
      | SynMeta.other => []
    else [])

/-- `RustParser::extract_derives_from_item` (src/parser.rs:48-68). -/
def extract_derives_from_item
    (item : SynItem) (repository file_path content : String) :
    List DeriveStatement :=
  match item with
  | .structItem attrs => extract_derives_from_attrs attrs repository file_path content
  | .enumItem attrs => extract_derives_from_attrs attrs repository file_path content
  | .unionItem attrs => extract_derives_from_attrs attrs repository file_path content
  | .otherItem => []

/-- The structured tier: the per-item extraction folded over the parsed
file's items (the loop in src/parser.rs:29-31). -/
def structured_tier
    (items : List SynItem) (repository file_path content : String) :
    List DeriveStatement :=
  items.flatMap (fun it => extract_derives_from_item it repository file_path content)

/-- `RustParser::is_likely_problematic_file` (src/parser.rs:176-204).
`content.len()` is the UTF-8 byte length in Rust, modelled by
`String.utf8ByteSize`. -/
def is_likely_problematic_file (content file_path : String) : Bool :=
  hasSubstring "rust-lang/rust/tests/".toList file_path.toList ||
  content.utf8ByteSize > 500000 ||
  (content.toList.count '\x7b' > 1000 || content.toList.count '\x7d' > 1000) ||
  (countMatches "macro_rules!".toList content.toList +
     countMatches "#[".toList content.toList > 200)

/-- Outcome of `panic::catch_unwind(|| syn::parse_file(content))`
(src/parser.rs:27): external-parser oracle.  `success` is `Ok(Ok(file))`,
`syntaxError` is `Ok(Err(e))`, `panicked` is `Err(_)` — an abrupt internal
failure caught at the isolation boundary. -/
inductive ParseOutcome where
  | success (items : List SynItem)
  | syntaxError
  | panicked
deriving Repr, DecidableEq

/-- `RustParser::extract_derives` (src/parser.rs:15-46), parameterised by the
external parser's outcome on `content`. -/
def extract_derives
    (parsed : ParseOutcome) (content repository file_path : String) :
    List DeriveStatement :=
  if is_likely_problematic_file content file_path then
    extract_derives_text_based content repository file_path
  else
    match parsed with
    | .success items => structured_tier items repository file_path content
    | .syntaxError => extract_derives_text_based content repository file_path
    | .panicked => extract_derives_text_based content repository file_path

/-- `RustParser::extract_derives_text_only` (src/parser.rs:169-174). -/
def extract_derives_text_only (content repository file_path : String) :
    List DeriveStatement :=
  extract_derives_text_based content repository file_path

/-- The C3 test input `#[derive(Clone, Copy)]\nstruct S;`. -/
def c3Input : String := "#[derive(Clone, Copy)]\nstruct S;"

/-- The oracle value for `syn::parse_file` on `c3Input`: one struct item with
one `derive` attribute whose `Meta::List` tokens render as `Clone , Copy`
(proc-macro2 prints identifier/punct streams space-separated). -/
def c3SynParse : ParseOutcome :=
  .success [SynItem.structItem
    [{ path := "derive", meta := SynMeta.list "Clone , Copy",
       rendered := "# [derive (Clone , Copy)]" }]]

/-! ### The repository cache (src/repo_cache.rs) -/

/-- `CacheConfig` (src/repo_cache.rs:10-15).  `cache_root` is left implicit
(all modelled paths live under it); `max_size_gb : f64` is modelled as `ℚ`. -/
structure CacheConfig where
  max_repositories : Nat
  max_size_gb : ℚ
deriving Repr, DecidableEq

/-- The cache state: the `active_repos` map of `RepositoryCache`
(src/repo_cache.rs:27-31) as an association list (head = earliest inserted,
`ensure_repository` inserts by appending), plus the on-disk contents under
the cache root as a path ↦ size-in-GB association — the part of the file
system through which `path.exists()`, `git clone`, `remove_dir_all` and
`du -sb` are modelled. -/
structure CacheState where
  active : List (String × String)
  disk : List (String × ℚ)
deriving Repr, DecidableEq

/-- A model of `HashMap::iter().next()`: `std::collections::HashMap`
iteration order is unspecified (randomized hashing), so the entry returned
by `.iter().next()` is an arbitrary element of the map.  Any function
satisfying `validSelector` is a behaviour permitted by the `HashMap`
contract. -/
abbrev Selector := List (String × String) → Option (String × String)

/-- The only guarantees `HashMap::iter().next()` gives: `none` exactly on
the empty map, otherwise some entry of the map. -/
def validSelector (sel : Selector) : Prop :=
  sel [] = none ∧ ∀ l, l ≠ [] → ∃ e ∈ l, sel l = some e

/-- One permitted hash-iteration behaviour: take the head (here: the
earliest-inserted entry). -/
def headSelector : Selector := fun l => l.head?

/-- Another permitted hash-iteration behaviour: take the last entry (here:
the most recently inserted one). -/
def lastSelector : Selector := fun l => l.getLast?

/-- `RepositoryCache::get_cache_size_gb` (src/repo_cache.rs:153-177): `du`
on the cache root, modelled as the sum of the sizes of everything on disk
under the root (0 when nothing is there, matching the missing-root case). -/
def get_cache_size_gb (st : CacheState) : ℚ :=
  (st.disk.map Prod.snd).sum

/-- `RepositoryCache::remove_oldest_repository` (src/repo_cache.rs:134-151):
take the first entry of the hash map's iteration (the selector), delete its
directory tree, remove its mapping; on an empty map do nothing and
succeed. -/
def remove_oldest_repository (sel : Selector) (st : CacheState) : CacheState :=
  match sel st.active with
  | none => st
  | some e =>
    { active := st.active.eraseP (fun x => x.1 == e.1),
      disk := st.disk.eraseP (fun x => x.1 == e.2) }

/-- The first `while` of `make_space_if_needed` (src/repo_cache.rs:116-120):
`while active_repos.len() >= max_repositories { remove_oldest }`, fuelled;
`none` means the loop did not finish within `fuel` iterations. -/
def countEvictLoop (sel : Selector) (maxRepos : Nat) :
    Nat → CacheState → Option CacheState
  | 0, _ => none
  | fuel + 1, st =>
    if maxRepos ≤ st.active.length then
      countEvictLoop sel maxRepos fuel (remove_oldest_repository sel st)
    else some st

/-- The second `while` of `make_space_if_needed` (src/repo_cache.rs:123-129):
`while cache_size > max_size_gb && !active_repos.is_empty() { remove_oldest;
recompute size }`, fuelled. -/
def sizeEvictLoop (sel : Selector) (maxSize : ℚ) :
    Nat → CacheState → Option CacheState
  | 0, _ => none
  | fuel + 1, st =>
    if maxSize < get_cache_size_gb st ∧ st.active ≠ [] then
      sizeEvictLoop sel maxSize fuel (remove_oldest_repository sel st)
    else some st

/-- `RepositoryCache::make_space_if_needed` (src/repo_cache.rs:114-132). -/
def make_space_if_needed (sel : Selector) (cfg : CacheConfig) (fuel : Nat)
    (st : CacheState) : Option CacheState :=
  (countEvictLoop sel cfg.max_repositories fuel st).bind
    (fun st2 => sizeEvictLoop sel cfg.max_size_gb fuel st2)

/-- `RepositoryCache::sanitize_repo_name` (src/repo_cache.rs:179-181). -/
def sanitize_repo_name (repo_name : String) : String :=
  String.mk (repo_name.toList.map (fun c => if c = '/' || c = '\\' then '_' else c))

/-- `RepositoryCache::clone_repository` (src/repo_cache.rs:65-112), with the
external `git` subprocess assumed to succeed and an existing target
directory assumed to be a valid working copy (reused without cloning);
`cloneSize` gives the on-disk size a repository occupies once cloned. -/
def clone_repository (cloneSize : String → ℚ) (st : CacheState)
    (full_name : String) : String × CacheState :=
  let repo_dir := sanitize_repo_name full_name
  if (st.disk.lookup repo_dir).isSome then (repo_dir, st)
  else (repo_dir, { st with disk := st.disk ++ [(repo_dir, cloneSize full_name)] })

/-- The miss path of `ensure_repository` (src/repo_cache.rs:55-62):
make space, clone, insert the new mapping (the key is absent on this path,
so `HashMap::insert` is an append).  The `Bool` in the result records that
`clone_repository` was invoked. -/
def ensureMiss (sel : Selector) (cloneSize : String → ℚ) (cfg : CacheConfig)
    (fuel : Nat) (st : CacheState) (full_name : String) :
    Option (String × CacheState × Bool) :=
  (make_space_if_needed sel cfg fuel st).map (fun st2 =>
    let pc := clone_repository cloneSize st2 full_name
    (pc.1, { pc.2 with active := pc.2.active ++ [(full_name, pc.1)] }, true))

/-- `RepositoryCache::ensure_repository` (src/repo_cache.rs:41-63).  Result
`none` models non-termination of the eviction loops; `some (path, st, b)`
is `Ok(path)` with final state `st`, where `b` records whether
`clone_repository` was invoked. -/
def ensure_repository (sel : Selector) (cloneSize : String → ℚ)
    (cfg : CacheConfig) (fuel : Nat) (st : CacheState) (full_name : String) :
    Option (String × CacheState × Bool) :=
  match st.active.lookup full_name with
  | some path =>
    if (st.disk.lookup path).isSome then some (path, st, false)
    else
      ensureMiss sel cloneSize cfg fuel
        { st with active := st.active.eraseP (fun e => e.1 == full_name) } full_name
  | none => ensureMiss sel cloneSize cfg fuel st full_name

/-! ### The search client (src/github.rs) -/

/-- The fields of a `GitHubRepository` search item that the collection loop
consumes (src/github.rs:23-33). -/
structure GitHubRepository where
  name : String
  full_name : String
  clone_url : String
  language : Option String
  stargazers_count : Nat
  size : Nat
deriving Repr, DecidableEq

/-- One HTTP response to a search-page request: success with parsed items,
HTTP 403/429 with an optional parsed `Retry-After` (seconds), or any other
non-success status. -/
inductive HttpResp where
  | ok (items : List GitHubRepository)
  | rateLimited (retryAfter : Option Nat)
  | otherError (status : Nat)
deriving Repr, DecidableEq

/-- Observable events of the search loop: a page request (with the current
page number and retry-attempt counter) and the two retry sleeps.  Sleep
durations are in whole seconds before jitter; the success-path
rate-limit-reset sleep and the fixed inter-page throttle are not claim
relevant and are not traced. -/
inductive SearchEv where
  | request (page attempt : Nat)
  | sleepBackoff (attempt secs : Nat)
  | sleepRetryAfter (secs : Nat)
deriving Repr, DecidableEq

/-- The per-page retry loop of `search_rust_repositories`
(src/github.rs:72-123): starting from retry counter `attempt`, issue the
request; on 403/429 increment the counter, sleep `Retry-After` seconds if
that header parsed, otherwise `2^(min attempt 6)` seconds, and retry the
same page; on success or any other status the loop ends.  The first
component is the event trace; `none` means the supplied response stream ran
out while the loop was still retrying. -/
def pageAttempts (page : Nat) (resps : List HttpResp) (attempt : Nat) :
    List SearchEv × Option (Except Nat (List GitHubRepository)) :=
  match resps with
  | [] => ([], none)
  | HttpResp.ok items :: _ =>
    ([SearchEv.request page attempt], some (Except.ok items))
  | HttpResp.otherError status :: _ =>
    ([SearchEv.request page attempt], some (Except.error status))
  | HttpResp.rateLimited (some sec) :: rest =>
    (SearchEv.request page attempt :: SearchEv.sleepRetryAfter sec ::
       (pageAttempts page rest (attempt + 1)).1,
     (pageAttempts page rest (attempt + 1)).2)
  | HttpResp.rateLimited none :: rest =>
    (SearchEv.request page attempt ::
       SearchEv.sleepBackoff (attempt + 1) (2 ^ min (attempt + 1) 6) ::
       (pageAttempts page rest (attempt + 1)).1,
     (pageAttempts page rest (attempt + 1)).2)

/-- The item-collection loop over one page (src/github.rs:128-140): stop at
`desired`, keep repositories with `size > 10`. -/
def pushItems (desired : Nat) (acc : List RepositoryInfo) :
    List GitHubRepository → List RepositoryInfo
  | [] => acc
  | repo :: rest =>
    if desired ≤ acc.length then acc
    else if 10 < repo.size then
      pushItems desired
        (acc ++ [{ name := repo.name, full_name := repo.full_name,
                   clone_url := repo.clone_url, language := repo.language,
                   stars := repo.stargazers_count }]) rest
    else pushItems desired acc rest

/-- The outer page loop of `search_rust_repositories` (src/github.rs:65-149)
over the remaining page numbers (`while repositories.len() < desired && page
<= max_pages`), with each page's response stream given by `respOf`.  Each
page restarts the retry loop with `attempt = 0` (the `let mut attempt = 0`
inside the `while` body, src/github.rs:72).  A page yielding fewer items
than `per_page` ends pagination early. -/
def searchPagesLoop (respOf : Nat → List HttpResp) (desired perPage : Nat) :
    List Nat → List RepositoryInfo →
    List SearchEv × Option (Except Nat (List RepositoryInfo))
  | [], acc => ([], some (Except.ok acc))
  | page :: restPages, acc =>
    if acc.length < desired then
      match (pageAttempts page (respOf page) 0).2 with
      | none => ((pageAttempts page (respOf page) 0).1, none)
      | some (Except.error status) =>
        ((pageAttempts page (respOf page) 0).1, some (Except.error status))
      | some (Except.ok items) =>
        if items.length < perPage then
          ((pageAttempts page (respOf page) 0).1,
           some (Except.ok (pushItems desired acc items)))
        else
          ((pageAttempts page (respOf page) 0).1 ++
             (searchPagesLoop respOf desired perPage restPages
               (pushItems desired acc items)).1,
           (searchPagesLoop respOf desired perPage restPages
             (pushItems desired acc items)).2)
    else ([], some (Except.ok acc))

/-- How a run of `search_rust_repositories` can end abnormally: a fatal
non-2xx status aborts with an error, and when `limit = 0` the expression
`(desired + per_page - 1) / per_page` divides by zero (`per_page = 0`),
which panics in Rust. -/
inductive SearchAbort where
  | httpError (status : Nat)
  | arithmeticPanic
deriving Repr, DecidableEq

/-- `desired` (src/github.rs:58): the hard 1000 cap. -/
def searchDesired (limit : Nat) : Nat := min limit 1000

/-- `per_page` (src/github.rs:59). -/
def searchPerPage (limit : Nat) : Nat := min 100 (searchDesired limit)

/-- `max_pages` (src/github.rs:60): `ceil(desired / per_page)` capped at 10.
Only meaningful when `per_page > 0` (see `search_rust_repositories`). -/
def searchMaxPages (limit : Nat) : Nat :=
  min ((searchDesired limit + searchPerPage limit - 1) / searchPerPage limit) 10

/-- `GitHubClient::search_rust_repositories` (src/github.rs:51-153): the
page loop over pages `1..=max_pages`.  When `limit = 0`, `per_page = 0` and
the Rust `max_pages` expression divides by zero and panics (in debug mode
the subtraction already overflows); that abnormal termination is modelled
by `SearchAbort.arithmeticPanic`.  `min_stars` only enters the query URL
and is omitted. -/
def search_rust_repositories (limit : Nat) (respOf : Nat → List HttpResp) :
    List SearchEv × Option (Except SearchAbort (List RepositoryInfo)) :=
  if searchPerPage limit = 0 then
    ([], some (Except.error SearchAbort.arithmeticPanic))
  else
    ((searchPagesLoop respOf (searchDesired limit) (searchPerPage limit)
        (List.range' 1 (searchMaxPages limit)) []).1,
     (searchPagesLoop respOf (searchDesired limit) (searchPerPage limit)
        (List.range' 1 (searchMaxPages limit)) []).2.map
       (fun e => e.mapError SearchAbort.httpError))

/-- The page/attempt pairs of the request events in a trace. -/
def requestsView (tr : List SearchEv) : List (Nat × Nat) :=
  tr.filterMap (fun e =>
    match e with
    | SearchEv.request p a => some (p, a)
    | _ => none)

/-- Number of requests the retry loop issues on a given response stream:
one per leading 403/429, plus one for the first terminal response. -/
def reqCount : List HttpResp → Nat
  | [] => 0
  | HttpResp.rateLimited _ :: rest => 1 + reqCount rest
  | _ :: _ => 1

/-! ### The summary aggregation (src/persistence.rs) -/

/-- One `entry(k).and_modify(|e| *e += 1).or_insert(1)` step on a hash map
modelled as an association list (src/persistence.rs:62-71). -/
def bumpCount : List (String × Nat) → String → List (String × Nat)
  | [], k => [(k, 1)]
  | (k', c) :: rest, k =>
    if k' = k then (k', c + 1) :: rest else (k', c) :: bumpCount rest k

/-- The counting fold of `save_summary` applied to a key-occurrence list. -/
def buildCounts (keys : List String) : List (String × Nat) :=
  keys.foldl bumpCount []

/-- The count the association list stores for key `j` (0 when absent;
first occurrence wins, matching hash-map key uniqueness). -/
def getCount : List (String × Nat) → String → Nat
  | [], _ => 0
  | (k, c) :: rest, j => if k = j then c else getCount rest j

/-- Insert into a list sorted by count descending (comparator
`|a, b| b.1.cmp(&a.1)` of src/persistence.rs:76,79). -/
def insertByCountDesc (x : String × Nat) :
    List (String × Nat) → List (String × Nat)
  | [] => [x]
  | y :: rest =>
    if y.2 ≤ x.2 then x :: y :: rest else y :: insertByCountDesc x rest

/-- `sort_by(|a, b| b.1.cmp(&a.1))`: a sort by count descending.  Modelled
by insertion sort; it agrees with the source's stable sort up to the order
of equal counts, which the claims do not constrain. -/
def sortByCountDesc (l : List (String × Nat)) : List (String × Nat) :=
  l.foldr insertByCountDesc []

/-- The summary JSON object of `ResultsPersistence::save_summary`
(src/persistence.rs:50-97).  The `analysis_timestamp` field reads the
external clock and is omitted. -/
structure AnalysisSummary where
  total_derive_statements : Nat
  total_repositories : Nat
  total_unique_derives : Nat
  most_common_derives : List (String × Nat)
  repositories_by_derive_count : List (String × Nat)
deriving Repr, DecidableEq

/-- `ResultsPersistence::save_summary` (src/persistence.rs:50-97), up to the
serialization and file write: the computed summary values. -/
def save_summary (derives : List DeriveStatement) : AnalysisSummary :=
  let derive_counts := buildCounts (derives.flatMap (fun d => d.derives))
  let repo_counts := buildCounts (derives.map (fun d => d.repository))
  let sorted_derives := sortByCountDesc derive_counts
  let sorted_repos := sortByCountDesc repo_counts
  { total_derive_statements := derives.foldl (fun n _ => n + 1) 0,
    total_repositories := sorted_repos.length,
    total_unique_derives := sorted_derives.length,
    most_common_derives := sorted_derives.take 20,
    repositories_by_derive_count := sorted_repos.take 20 }

/-! ### Concrete inputs used by counterexamples and witnesses -/

/-- Two-annotation input for C6: annotations on lines 1 and 3. -/
def c6Input : String := "#[derive(Clone)]\nstruct A;\n#[derive(Copy)]\nstruct B;"

/-- The `syn` oracle items for `c6Input`: two struct items, each with one
`derive` attribute. -/
def c6SynItems : List SynItem :=
  [SynItem.structItem
     [{ path := "derive", meta := SynMeta.list "Clone",
        rendered := "# [derive (Clone)]" }],
   SynItem.structItem
     [{ path := "derive", meta := SynMeta.list "Copy",
        rendered := "# [derive (Copy)]" }]]

/-- 1-based numbers of the lines of `content` containing `derive`. -/
def deriveLineNumbers (content : String) : List Nat :=
  ((rustLines content).enum.filter
    (fun p => hasSubstring "derive".toList p.2)).map (fun p => p.1 + 1)

/-- Distance between two line numbers. -/
def lineDist (a b : Nat) : Nat := max a b - min a b

/-- Modelled from the spec: "Record a best-effort 1-based line number
(nearest line containing the construct's keyword)", read — as claim C6
does — relative to the matched annotation: the derive-containing line
closest to the annotation's own line, earlier lines winning ties; `none`
when no line contains the keyword. -/
def specNearestDeriveLine (content : String) (annotationLine : Nat) :
    Option Nat :=
  (deriveLineNumbers content).foldl
    (fun best i =>
      match best with
      | none => some i
      | some j =>
        if lineDist i annotationLine < lineDist j annotationLine then some i
        else some j)
    none

/-- A one-item search page used by the C2 witness. -/
def c2Repo : GitHubRepository :=
  { name := "n", full_name := "o/n", clone_url := "u", language := none,
    stargazers_count := 50, size := 20 }

/-- The descriptor the collection loop builds from `c2Repo`. -/
def c2Info : RepositoryInfo :=
  { name := "n", full_name := "o/n", clone_url := "u", language := none,
    stars := 50 }

/-- A small findings list exercising the summary aggregation. -/
def c9Example : List DeriveStatement :=
  [{ repository := "o/r1", file_path := "a.rs", line_number := 1,
     derives := ["Clone", "Debug"], full_line := "#[derive(Clone, Debug)]" },
   { repository := "o/r2", file_path := "b.rs", line_number := 2,
     derives := ["Clone"], full_line := "#[derive(Clone)]" },
   { repository := "o/r1", file_path := "a.rs", line_number := 9,
     derives := ["Clone"], full_line := "#[derive(Clone)]" }]

end DeriveAnalysis

namespace DeriveAnalysis

/-! ### Scanner theorems -/

/-- C1: for every input and every outcome of the isolated structured-parse
attempt (success, reported syntax error, or caught panic), the scanner's
extraction is either the structured-tier result or the text-tier result —
no unrecovered failure escapes `extract_derives` — and both the panic and
the syntax-error outcomes yield exactly the text-tier output. -/
theorem c1_scanner_fault_isolation
    (parsed : ParseOutcome) (content repository file_path : String) :
    ((∃ items, parsed = ParseOutcome.success items ∧
        extract_derives parsed content repository file_path =
          structured_tier items repository file_path content) ∨
      extract_derives parsed content repository file_path =
        extract_derives_text_only content repository file_path) ∧
    extract_derives ParseOutcome.panicked content repository file_path =
      extract_derives_text_only content repository file_path ∧
    extract_derives ParseOutcome.syntaxError content repository file_path =
      extract_derives_text_only content repository file_path := by
  refine ⟨?_, ?_, ?_⟩
  · cases hb : is_likely_problematic_file content file_path
    · cases parsed with
      | success items =>
        exact Or.inl ⟨items, rfl, by simp [extract_derives, hb]⟩
      | syntaxError =>
        exact Or.inr (by simp [extract_derives, extract_derives_text_only, hb])
      | panicked =>
        exact Or.inr (by simp [extract_derives, extract_derives_text_only, hb])
    · exact Or.inr (by simp [extract_derives, extract_derives_text_only, hb])
  · cases hb : is_likely_problematic_file content file_path <;>
      simp [extract_derives, extract_derives_text_only, hb]
  · cases hb : is_likely_problematic_file content file_path <;>
      simp [extract_derives, extract_derives_text_only, hb]

/-- C3: on the input `#[derive(Clone, Copy)]\nstruct S;` the structured tier
(via the recorded `syn` outcome `c3SynParse`) and the text tier each produce
exactly one finding with identifiers `["Clone", "Copy"]` in order, line
number 1, and `full_line` equal (verbatim) to the first input line. -/
theorem c3_simple_input_both_tiers :
    extract_derives c3SynParse c3Input "test/repo" "src/lib.rs" =
      [{ repository := "test/repo", file_path := "src/lib.rs", line_number := 1,
         derives := ["Clone", "Copy"], full_line := "#[derive(Clone, Copy)]" }] ∧
    extract_derives_text_only c3Input "test/repo" "src/lib.rs" =
      [{ repository := "test/repo", file_path := "src/lib.rs", line_number := 1,
         derives := ["Clone", "Copy"], full_line := "#[derive(Clone, Copy)]" }] ∧
    (rustLines c3Input).getD 0 [] = "#[derive(Clone, Copy)]".toList := by
  decide

/-- Helper: every finding of `extract_derives_from_attrs` records the first
line of the whole file containing `derive` (what `find_line_number` computes
for any target) and that line's verbatim text. -/
theorem mem_extract_attrs_line
    (attrs : List SynAttribute) (repository file_path content : String)
    (d : DeriveStatement)
    (hd : d ∈ extract_derives_from_attrs attrs repository file_path content) :
    d.line_number = find_line_number content "" ∧
    d.full_line = get_line_at_number content d.line_number := by
  simp only [extract_derives_from_attrs, List.mem_flatMap] at hd
  obtain ⟨attr, -, ha⟩ := hd
  by_cases hp : attr.path = "derive"
  · simp only [hp, if_true] at ha
    cases hm : attr.meta with
    | other => simp [hm] at ha
    | list tokens =>
      simp only [hm] at ha
      split at ha
      · simp at ha
      · simp only [List.mem_singleton] at ha
        subst ha
        exact ⟨rfl, rfl⟩
  · simp [hp] at ha

/-- C6 (corrected form): every finding of the structured tier records the
first line of the file containing the substring `derive` — independent of
which annotation was matched, since `find_line_number` ignores its target
argument — and records that line's verbatim text as `full_line`. -/
theorem c6_structured_line_is_first_derive_line
    (items : List SynItem) (content repository file_path : String)
    (d : DeriveStatement)
    (hd : d ∈ structured_tier items repository file_path content) :
    d.line_number = find_line_number content "" ∧
    d.full_line = get_line_at_number content d.line_number := by
  simp only [structured_tier, List.mem_flatMap] at hd
  obtain ⟨item, -, hitem⟩ := hd
  cases item with
  | structItem attrs =>
    exact mem_extract_attrs_line attrs repository file_path content d hitem
  | enumItem attrs =>
    exact mem_extract_attrs_line attrs repository file_path content d hitem
  | unionItem attrs =>
    exact mem_extract_attrs_line attrs repository file_path content d hitem
  | otherItem => simp [extract_derives_from_item] at hitem

/-- C6 counterexample: on `c6Input` the two annotations lie on lines 1 and 3
(both containing `derive`), yet the structured tier records line 1 — and
line 1's text — for *both* findings; the line nearest to the second matched
annotation is line 3 ≠ 1. -/
theorem c6_counterexample_not_nearest :
    extract_derives (ParseOutcome.success c6SynItems) c6Input "o/r" "src/a.rs" =
      [{ repository := "o/r", file_path := "src/a.rs", line_number := 1,
         derives := ["Clone"], full_line := "#[derive(Clone)]" },
       { repository := "o/r", file_path := "src/a.rs", line_number := 1,
         derives := ["Copy"], full_line := "#[derive(Clone)]" }] ∧
    get_line_at_number c6Input 3 = "#[derive(Copy)]" ∧
    specNearestDeriveLine c6Input 3 = some 3 ∧
    (1 : Nat) ≠ 3 := by
  decide

/-- Witness for `c6_structured_line_is_first_derive_line` at the second
finding of the C6 input. -/
theorem c6_structured_line_witness :
    ({ repository := "o/r", file_path := "src/a.rs", line_number := 1,
       derives := ["Copy"], full_line := "#[derive(Clone)]" } :
        DeriveStatement).line_number = find_line_number c6Input "" ∧
    ({ repository := "o/r", file_path := "src/a.rs", line_number := 1,
       derives := ["Copy"], full_line := "#[derive(Clone)]" } :
        DeriveStatement).full_line = get_line_at_number c6Input 1 :=
  c6_structured_line_is_first_derive_line c6SynItems c6Input "o/r" "src/a.rs"
    { repository := "o/r", file_path := "src/a.rs", line_number := 1,
      derives := ["Copy"], full_line := "#[derive(Clone)]" }
    (by decide)

end DeriveAnalysis

namespace DeriveAnalysis

/-! ### Cache helper lemmas -/

/-- `headSelector` is a permitted hash-iteration behaviour. -/
theorem headSelector_valid : validSelector headSelector := by
  constructor
  · rfl
  · intro l hl
    cases l with
    | nil => exact absurd rfl hl
    | cons a t => exact ⟨a, List.mem_cons_self a t, rfl⟩

/-- `lastSelector` is a permitted hash-iteration behaviour. -/
theorem lastSelector_valid : validSelector lastSelector := by
  constructor
  · rfl
  · intro l hl
    exact ⟨l.getLast hl, List.getLast_mem hl, List.getLast?_eq_getLast l hl⟩

/-- Unfolding `remove_oldest_repository` at a selected entry. -/
theorem remove_oldest_eq_of_some (sel : Selector) (st : CacheState)
    (e : String × String) (h : sel st.active = some e) :
    remove_oldest_repository sel st =
      { active := st.active.eraseP (fun x => x.1 == e.1),
        disk := st.disk.eraseP (fun x => x.1 == e.2) } := by
  unfold remove_oldest_repository
  rw [h]

/-- Eviction never grows the entry map. -/
theorem remove_oldest_length_le (sel : Selector) (st : CacheState) :
    (remove_oldest_repository sel st).active.length ≤ st.active.length := by
  unfold remove_oldest_repository
  cases h : sel st.active with
  | none => exact le_refl _
  | some e =>
    simp only
    rw [List.length_eraseP]
    split <;> omega

/-- With a valid selector, evicting from a non-empty map strictly shrinks
it. -/
theorem remove_oldest_length_lt (sel : Selector) (hsel : validSelector sel)
    (st : CacheState) (h : st.active ≠ []) :
    (remove_oldest_repository sel st).active.length < st.active.length := by
  obtain ⟨e, he, hsome⟩ := hsel.2 st.active h
  rw [remove_oldest_eq_of_some sel st e hsome]
  simp only
  rw [List.length_eraseP_of_mem he (by simp)]
  have : 0 < st.active.length := List.length_pos.mpr h
  omega

/-- After erasing by key, that key is gone (keys were distinct). -/
theorem key_not_mem_eraseP (l : List (String × String)) (k : String)
    (hnodup : (l.map Prod.fst).Nodup) :
    k ∉ (l.eraseP (fun x => x.1 == k)).map Prod.fst := by
  induction l with
  | nil => simp
  | cons a t ih =>
    simp only [List.map_cons, List.nodup_cons] at hnodup
    by_cases hk : a.1 = k
    · rw [List.eraseP_cons_of_pos (by simp [hk])]
      rw [← hk]
      exact hnodup.1
    · rw [List.eraseP_cons_of_neg (by simp [hk])]
      simp only [List.map_cons, List.mem_cons]
      rintro (h | h)
      · exact hk h.symm
      · exact ih hnodup.2 h

/-- A `while`-false fuelled loop with `max_repositories = 0` never
finishes: the condition `len >= 0` always holds. -/
theorem countEvictLoop_zero_none (sel : Selector) (fuel : Nat)
    (st : CacheState) : countEvictLoop sel 0 fuel st = none := by
  induction fuel generalizing st with
  | zero => rfl
  | succ f ih =>
    rw [countEvictLoop, if_pos (Nat.zero_le _)]
    exact ih _

/-- When the count-eviction loop finishes, the count is strictly under the
limit. -/
theorem countEvictLoop_some_lt (sel : Selector) (maxRepos fuel : Nat)
    (st st' : CacheState)
    (h : countEvictLoop sel maxRepos fuel st = some st') :
    st'.active.length < maxRepos := by
  induction fuel generalizing st with
  | zero => simp [countEvictLoop] at h
  | succ f ih =>
    rw [countEvictLoop] at h
    split at h
    · exact ih _ h
    · cases h
      omega

/-- With a valid selector, the count-eviction loop finishes given fuel
beyond the entry count (each iteration strictly shrinks the map, and the
exit condition triggers no later than at the empty map when the limit is
positive). -/
theorem countEvictLoop_terminates (sel : Selector) (hsel : validSelector sel)
    (maxRepos : Nat) (hm : 1 ≤ maxRepos) (fuel : Nat) (st : CacheState)
    (hf : st.active.length < fuel) :
    ∃ st', countEvictLoop sel maxRepos fuel st = some st' ∧
      st'.active.length ≤ st.active.length := by
  induction fuel generalizing st with
  | zero => omega
  | succ f ih =>
    by_cases hc : maxRepos ≤ st.active.length
    · have hne : st.active ≠ [] := by
        intro h0
        rw [h0] at hc
        simp at hc
        omega
      have hlt := remove_oldest_length_lt sel hsel st hne
      have harg : (remove_oldest_repository sel st).active.length < f := by omega
      obtain ⟨st', h1, h2⟩ := ih (remove_oldest_repository sel st) harg
      refine ⟨st', ?_, by omega⟩
      rw [countEvictLoop, if_pos hc]
      exact h1
    · refine ⟨st, ?_, le_refl _⟩
      rw [countEvictLoop, if_neg hc]

/-- When the size-eviction loop finishes, either the measured size is within
the limit or the map is empty; and the map did not grow. -/
theorem sizeEvictLoop_some (sel : Selector) (maxSize : ℚ) (fuel : Nat)
    (st st' : CacheState)
    (h : sizeEvictLoop sel maxSize fuel st = some st') :
    (get_cache_size_gb st' ≤ maxSize ∨ st'.active = []) ∧
      st'.active.length ≤ st.active.length := by
  induction fuel generalizing st with
  | zero => simp [sizeEvictLoop] at h
  | succ f ih =>
    rw [sizeEvictLoop] at h
    split at h
    · obtain ⟨h1, h2⟩ := ih _ h
      exact ⟨h1, le_trans h2 (remove_oldest_length_le sel st)⟩
    · cases h
      rename_i hcond
      rw [not_and_or] at hcond
      refine ⟨?_, le_refl _⟩
      rcases hcond with h1 | h1
      · exact Or.inl (le_of_not_lt h1)
      · exact Or.inr (not_not.mp h1)

/-- With a valid selector, the size-eviction loop finishes given fuel beyond
the entry count. -/
theorem sizeEvictLoop_terminates (sel : Selector) (hsel : validSelector sel)
    (maxSize : ℚ) (fuel : Nat) (st : CacheState)
    (hf : st.active.length < fuel) :
    ∃ st', sizeEvictLoop sel maxSize fuel st = some st' := by
  induction fuel generalizing st with
  | zero => omega
  | succ f ih =>
    by_cases hc : maxSize < get_cache_size_gb st ∧ st.active ≠ []
    · have hlt := remove_oldest_length_lt sel hsel st hc.2
      have harg : (remove_oldest_repository sel st).active.length < f := by omega
      obtain ⟨st', h1⟩ := ih (remove_oldest_repository sel st) harg
      refine ⟨st', ?_⟩
      rw [sizeEvictLoop, if_pos hc]
      exact h1
    · refine ⟨st, ?_⟩
      rw [sizeEvictLoop, if_neg hc]

/-- `clone_repository` does not touch the entry map. -/
theorem clone_repository_active (cloneSize : String → ℚ) (st : CacheState)
    (full_name : String) :
    (clone_repository cloneSize st full_name).2.active = st.active := by
  cases h : (st.disk.lookup (sanitize_repo_name full_name)).isSome <;>
    simp [clone_repository, h]

/-- Anatomy of a finished miss path: make-space finished, the clone was
invoked, and the new mapping was appended. -/
theorem ensureMiss_spec (sel : Selector) (cloneSize : String → ℚ)
    (cfg : CacheConfig) (fuel : Nat) (st : CacheState) (full_name path : String)
    (st' : CacheState) (b : Bool)
    (h : ensureMiss sel cloneSize cfg fuel st full_name = some (path, st', b)) :
    b = true ∧ ∃ st2, make_space_if_needed sel cfg fuel st = some st2 ∧
      st'.active = st2.active ++ [(full_name, path)] := by
  unfold ensureMiss at h
  cases hms : make_space_if_needed sel cfg fuel st with
  | none => rw [hms] at h; simp at h
  | some st2 =>
    rw [hms] at h
    simp only [Option.map_some] at h
    cases h
    refine ⟨rfl, st2, rfl, ?_⟩
    simp [clone_repository_active]

/-- A finished make-space leaves the count strictly under the limit. -/
theorem make_space_some_length (sel : Selector) (cfg : CacheConfig)
    (fuel : Nat) (st st2 : CacheState)
    (h : make_space_if_needed sel cfg fuel st = some st2) :
    st2.active.length < cfg.max_repositories := by
  unfold make_space_if_needed at h
  cases h1 : countEvictLoop sel cfg.max_repositories fuel st with
  | none => rw [h1] at h; simp at h
  | some st1 =>
    rw [h1] at h
    simp only [Option.some_bind] at h
    have := countEvictLoop_some_lt sel cfg.max_repositories fuel st st1 h1
    have := (sizeEvictLoop_some sel cfg.max_size_gb fuel st1 st2 h).2
    omega

/-- A finished make-space satisfies the size bound or emptied the map. -/
theorem make_space_some_size (sel : Selector) (cfg : CacheConfig)
    (fuel : Nat) (st st2 : CacheState)
    (h : make_space_if_needed sel cfg fuel st = some st2) :
    get_cache_size_gb st2 ≤ cfg.max_size_gb ∨ st2.active = [] := by
  unfold make_space_if_needed at h
  cases h1 : countEvictLoop sel cfg.max_repositories fuel st with
  | none => rw [h1] at h; simp at h
  | some st1 =>
    rw [h1] at h
    simp only [Option.some_bind] at h
    exact (sizeEvictLoop_some sel cfg.max_size_gb fuel st1 st2 h).1

/-- With a valid selector and a positive repository limit, the miss path
finishes on fuel `entry count + 1`. -/
theorem ensureMiss_terminates (sel : Selector) (hsel : validSelector sel)
    (cloneSize : String → ℚ) (cfg : CacheConfig)
    (hm : 1 ≤ cfg.max_repositories) (st : CacheState) (full_name : String) :
    ∃ out, ensureMiss sel cloneSize cfg (st.active.length + 1) st full_name =
      some out := by
  obtain ⟨st2, h1, h2⟩ := countEvictLoop_terminates sel hsel
    cfg.max_repositories hm (st.active.length + 1) st (by omega)
  obtain ⟨st3, h3⟩ := sizeEvictLoop_terminates sel hsel cfg.max_size_gb
    (st.active.length + 1) st2 (by omega)
  unfold ensureMiss make_space_if_needed
  rw [h1]
  simp only [Option.some_bind]
  rw [h3]
  exact ⟨_, rfl⟩

end DeriveAnalysis

namespace DeriveAnalysis

/-! ### Cache claim theorems -/

/-- C7: on a cache hit — the key is mapped and the mapped path exists on
disk — `ensure_repository` returns that path unchanged, invokes no clone
(the `false` flag: `clone_repository` is never reached), and leaves the
whole cache state, in particular the entry map, unchanged. -/
theorem c7_cache_hit_no_clone
    (sel : Selector) (cloneSize : String → ℚ) (cfg : CacheConfig) (fuel : Nat)
    (st : CacheState) (full_name path : String)
    (hmap : st.active.lookup full_name = some path)
    (hdisk : (st.disk.lookup path).isSome) :
    ensure_repository sel cloneSize cfg fuel st full_name =
      some (path, st, false) := by
  unfold ensure_repository
  rw [hmap]
  simp [hdisk]

/-- Witness for `c7_cache_hit_no_clone` at a one-entry cache. -/
theorem c7_cache_hit_no_clone_witness :
    ensure_repository headSelector (fun _ => 1) ⟨5, 2⟩ 0
      ⟨[("o/r", "o_r")], [("o_r", 1)]⟩ "o/r" =
      some ("o_r", ⟨[("o/r", "o_r")], [("o_r", 1)]⟩, false) :=
  c7_cache_hit_no_clone headSelector (fun _ => 1) ⟨5, 2⟩ 0
    ⟨[("o/r", "o_r")], [("o_r", 1)]⟩ "o/r" "o_r" (by decide) (by decide)

/-- C10: with any permitted hash-iteration behaviour, (i) for
`max_repositories ≥ 1` a terminating fuel exists for `ensure_repository`
on every state (in particular on every miss); (ii) for `max_repositories
= 0` the count-eviction loop returns for no fuel whatsoever — its
condition `len >= 0` always holds; and (iii) evicting from an empty entry
map removes nothing, so that loop can never make progress. -/
theorem c10_eviction_termination
    (sel : Selector) (hsel : validSelector sel) (cloneSize : String → ℚ)
    (cfg : CacheConfig) (st : CacheState) (full_name : String) :
    (1 ≤ cfg.max_repositories →
      ∃ fuel out,
        ensure_repository sel cloneSize cfg fuel st full_name = some out) ∧
    (cfg.max_repositories = 0 →
      ∀ fuel st0, countEvictLoop sel cfg.max_repositories fuel st0 = none) ∧
    (∀ disk, remove_oldest_repository sel ⟨[], disk⟩ = ⟨[], disk⟩) := by
  refine ⟨?_, ?_, ?_⟩
  · intro hm
    cases hlook : st.active.lookup full_name with
    | none =>
      obtain ⟨out, hout⟩ :=
        ensureMiss_terminates sel hsel cloneSize cfg hm st full_name
      refine ⟨st.active.length + 1, out, ?_⟩
      unfold ensure_repository
      rw [hlook]
      exact hout
    | some path =>
      cases hd : (st.disk.lookup path).isSome with
      | true =>
        refine ⟨0, (path, st, false), ?_⟩
        unfold ensure_repository
        rw [hlook]
        simp [hd]
      | false =>
        obtain ⟨out, hout⟩ := ensureMiss_terminates sel hsel cloneSize cfg hm
          { st with active := st.active.eraseP (fun x => x.1 == full_name) }
          full_name
        refine ⟨(st.active.eraseP (fun x => x.1 == full_name)).length + 1, out, ?_⟩
        unfold ensure_repository
        rw [hlook]
        simp only [hd, Bool.false_eq_true, if_false]
        exact hout
  · intro h0 fuel st0
    rw [h0]
    exact countEvictLoop_zero_none sel fuel st0
  · intro disk
    unfold remove_oldest_repository
    rw [show (CacheState.mk [] disk).active = [] from rfl, hsel.1]

/-- Witness for `c10_eviction_termination` with the head selector,
`max_repositories = 1` and an empty cache. -/
theorem c10_eviction_termination_witness :
    ((1 : Nat) ≤ 1 →
      ∃ fuel out, ensure_repository headSelector (fun _ => 1) ⟨1, 2⟩ fuel
        ⟨[], []⟩ "o/r" = some out) ∧
    ((1 : Nat) = 0 →
      ∀ fuel st0, countEvictLoop headSelector 1 fuel st0 = none) ∧
    (∀ disk, remove_oldest_repository headSelector ⟨[], disk⟩ = ⟨[], disk⟩) :=
  c10_eviction_termination headSelector headSelector_valid (fun _ => 1)
    ⟨1, 2⟩ ⟨[], []⟩ "o/r"

/-- C4 counterexample: starting from an *empty* cache with `max_size_gb =
2`, one successful `ensure_repository` of a repository whose clone occupies
5 GB ends with measured cache size 5 > 2 while the entry map is non-empty —
no size check runs after the clone, so the bound does not hold after the
call. -/
theorem c4_counterexample_size_after_clone :
    ensure_repository headSelector (fun _ => 5) ⟨5, 2⟩ 1 ⟨[], []⟩ "o/r" =
      some ("o_r", ⟨[("o/r", "o_r")], [("o_r", 5)]⟩, true) ∧
    get_cache_size_gb ⟨[("o/r", "o_r")], [("o_r", 5)]⟩ = 5 ∧
    ¬((5 : ℚ) ≤ 2) ∧
    (⟨[("o/r", "o_r")], [("o_r", 5)]⟩ : CacheState).active ≠ [] := by
  refine ⟨by decide, by simp [get_cache_size_gb], by decide, by decide⟩

/-- C4 (corrected form): after a successful `ensure_repository`, (i) if the
call cloned (miss path), the entry count is at most `max_repositories`
regardless of the initial state; (ii) if it did not clone (hit path), the
state — and hence the count — is exactly the initial one; and (iii) the
size bound holds at the admission point: whenever `make_space_if_needed`
finishes, the measured size is within `max_size_gb` or the map is empty.
The post-call size bound of the original claim fails
(`c4_counterexample_size_after_clone`). -/
theorem c4_amended_bounds
    (sel : Selector) (cloneSize : String → ℚ) (cfg : CacheConfig) (fuel : Nat)
    (st : CacheState) (full_name path : String) (st' : CacheState)
    (cloned : Bool)
    (h : ensure_repository sel cloneSize cfg fuel st full_name =
      some (path, st', cloned)) :
    (cloned = true → st'.active.length ≤ cfg.max_repositories) ∧
    (cloned = false → st' = st) ∧
    (∀ st2, make_space_if_needed sel cfg fuel st = some st2 →
      get_cache_size_gb st2 ≤ cfg.max_size_gb ∨ st2.active = []) := by
  have h3 : ∀ st2, make_space_if_needed sel cfg fuel st = some st2 →
      get_cache_size_gb st2 ≤ cfg.max_size_gb ∨ st2.active = [] :=
    fun st2 h2 => make_space_some_size sel cfg fuel st st2 h2
  unfold ensure_repository at h
  cases hlook : st.active.lookup full_name with
  | none =>
    rw [hlook] at h
    obtain ⟨hb, st2, hms, hact⟩ :=
      ensureMiss_spec sel cloneSize cfg fuel st full_name path st' cloned h
    have hlen := make_space_some_length sel cfg fuel st st2 hms
    refine ⟨fun _ => ?_, fun hc => ?_, h3⟩
    · rw [hact]
      simp only [List.length_append, List.length_singleton]
      omega
    · rw [hb] at hc
      exact absurd hc (by simp)
  | some p0 =>
    rw [hlook] at h
    cases hd : (st.disk.lookup p0).isSome with
    | true =>
      simp only [hd, if_true, Option.some_inj, Prod.mk.injEq] at h
      refine ⟨fun hcl => ?_, fun _ => h.2.1.symm, h3⟩
      rw [← h.2.2] at hcl
      exact absurd hcl (by simp)
    | false =>
      simp only [hd, Bool.false_eq_true, if_false] at h
      obtain ⟨hb, st2, hms, hact⟩ :=
        ensureMiss_spec sel cloneSize cfg fuel _ full_name path st' cloned h
      have hlen := make_space_some_length sel cfg fuel _ st2 hms
      refine ⟨fun _ => ?_, fun hc => ?_, h3⟩
      · rw [hact]
        simp only [List.length_append, List.length_singleton]
        omega
      · rw [hb] at hc
        exact absurd hc (by simp)

/-- Witness for `c4_amended_bounds` on the concrete 5 GB clone run. -/
theorem c4_amended_bounds_witness :
    (true = true →
      (⟨[("o/r", "o_r")], [("o_r", 5)]⟩ : CacheState).active.length ≤ 5) ∧
    (true = false →
      (⟨[("o/r", "o_r")], [("o_r", 5)]⟩ : CacheState) = ⟨[], []⟩) ∧
    (∀ st2, make_space_if_needed headSelector ⟨5, 2⟩ 1 ⟨[], []⟩ = some st2 →
      get_cache_size_gb st2 ≤ (2 : ℚ) ∨ st2.active = []) :=
  c4_amended_bounds headSelector (fun _ => 5) ⟨5, 2⟩ 1 ⟨[], []⟩ "o/r" "o_r"
    ⟨[("o/r", "o_r")], [("o_r", 5)]⟩ true (by decide)

/-- C5 (corrected form): on a miss, admission evicts whichever entry the
hash map's (unspecified) iteration yields first — the selector — not the
earliest-inserted entry; while the count is at or above `max_repositories`
(and then while the size exceeds `max_size_gb` and the map is non-empty)
the loops step by one eviction, each eviction removing the selected entry's
mapping and its directory. -/
theorem c5_eviction_selector_order
    (sel : Selector) (hsel : validSelector sel) (cfg : CacheConfig)
    (fuel : Nat) (st : CacheState)
    (hnodup : (st.active.map Prod.fst).Nodup) (hne : st.active ≠ []) :
    (∃ e, sel st.active = some e ∧ e ∈ st.active ∧
      remove_oldest_repository sel st =
        { active := st.active.eraseP (fun x => x.1 == e.1),
          disk := st.disk.eraseP (fun x => x.1 == e.2) } ∧
      e.1 ∉ (remove_oldest_repository sel st).active.map Prod.fst) ∧
    (cfg.max_repositories ≤ st.active.length →
      countEvictLoop sel cfg.max_repositories (fuel + 1) st =
        countEvictLoop sel cfg.max_repositories fuel
          (remove_oldest_repository sel st)) ∧
    (st.active.length < cfg.max_repositories →
      countEvictLoop sel cfg.max_repositories (fuel + 1) st = some st) ∧
    (cfg.max_size_gb < get_cache_size_gb st →
      sizeEvictLoop sel cfg.max_size_gb (fuel + 1) st =
        sizeEvictLoop sel cfg.max_size_gb fuel
          (remove_oldest_repository sel st)) ∧
    (get_cache_size_gb st ≤ cfg.max_size_gb →
      sizeEvictLoop sel cfg.max_size_gb (fuel + 1) st = some st) ∧
    make_space_if_needed sel cfg fuel st =
      (countEvictLoop sel cfg.max_repositories fuel st).bind
        (sizeEvictLoop sel cfg.max_size_gb fuel) := by
  obtain ⟨e, he, hsome⟩ := hsel.2 st.active hne
  refine ⟨⟨e, hsome, he, remove_oldest_eq_of_some sel st e hsome, ?_⟩,
    ?_, ?_, ?_, ?_, rfl⟩
  · rw [remove_oldest_eq_of_some sel st e hsome]
    exact key_not_mem_eraseP st.active e.1 hnodup
  · intro hc
    rw [countEvictLoop, if_pos hc]
  · intro hc
    rw [countEvictLoop, if_neg (by omega)]
  · intro hc
    rw [sizeEvictLoop, if_pos ⟨hc, hne⟩]
  · intro hc
    rw [sizeEvictLoop, if_neg ?_]
    rintro ⟨h1, -⟩
    exact absurd h1 (not_lt.mpr hc)

/-- Witness for `c5_eviction_selector_order`: one count-eviction step on a
full two-entry cache. -/
theorem c5_eviction_selector_order_witness :
    countEvictLoop headSelector 2 (2 + 1)
        ⟨[("o/a", "pa"), ("o/b", "pb")], []⟩ =
      countEvictLoop headSelector 2 2
        (remove_oldest_repository headSelector
          ⟨[("o/a", "pa"), ("o/b", "pb")], []⟩) :=
  (c5_eviction_selector_order headSelector headSelector_valid ⟨2, 2⟩ 2
    ⟨[("o/a", "pa"), ("o/b", "pb")], []⟩ (by decide) (by decide)).2.1
    (by decide)

/-- C5 counterexample: the entry map lists entries in insertion order (the
head `("o/a","pa")` was inserted first).  Under the permitted hash-iteration
behaviour `lastSelector`, one admission pass at `max_repositories = 2`
evicts `("o/b","pb")` — the most recently inserted entry — and leaves the
earliest-inserted entry in place, so eviction is *not* in insertion order. -/
theorem c5_counterexample_not_insertion_order :
    validSelector lastSelector ∧
    (⟨[("o/a", "pa"), ("o/b", "pb")], []⟩ : CacheState).active.head? =
      some ("o/a", "pa") ∧
    countEvictLoop lastSelector 2 3 ⟨[("o/a", "pa"), ("o/b", "pb")], []⟩ =
      some ⟨[("o/a", "pa")], []⟩ ∧
    ("o/b", "pb") ≠ (("o/a", "pa") : String × String) :=
  ⟨lastSelector_valid, rfl, by decide, by decide⟩

end DeriveAnalysis

namespace DeriveAnalysis

/-! ### Search-client helper lemmas -/

/-- The collection loop never pushes past `desired`. -/
theorem pushItems_length_le (desired : Nat) (acc : List RepositoryInfo)
    (items : List GitHubRepository) (h : acc.length ≤ desired) :
    (pushItems desired acc items).length ≤ desired := by
  induction items generalizing acc with
  | nil => exact h
  | cons repo rest ih =>
    rw [pushItems]
    by_cases hc : desired ≤ acc.length
    · rw [if_pos hc]
      exact h
    · rw [if_neg hc]
      by_cases hs : 10 < repo.size
      · rw [if_pos hs]
        refine ih _ ?_
        simp only [List.length_append, List.length_singleton]
        omega
      · rw [if_neg hs]
        exact ih _ h

/-- When the page loop ends with `Ok`, the collected list respects
`desired`. -/
theorem searchPagesLoop_ok_length (respOf : Nat → List HttpResp)
    (desired perPage : Nat) (pages : List Nat) (acc : List RepositoryInfo)
    (hacc : acc.length ≤ desired) (tr : List SearchEv)
    (r : List RepositoryInfo)
    (h : searchPagesLoop respOf desired perPage pages acc =
      (tr, some (Except.ok r))) :
    r.length ≤ desired := by
  induction pages generalizing acc tr with
  | nil =>
    rw [searchPagesLoop] at h
    simp only [Prod.mk.injEq, Option.some_inj, Except.ok.injEq] at h
    rw [← h.2]
    exact hacc
  | cons page rest ih =>
    rw [searchPagesLoop] at h
    by_cases hc : acc.length < desired
    · rw [if_pos hc] at h
      split at h
      · simp at h
      · simp at h
      · rename_i items heq
        split at h
        · simp only [Prod.mk.injEq, Option.some_inj, Except.ok.injEq] at h
          rw [← h.2]
          exact pushItems_length_le desired acc items hacc
        · simp only [Prod.mk.injEq] at h
          refine ih (pushItems desired acc items) ?_
            (searchPagesLoop respOf desired perPage rest
              (pushItems desired acc items)).1 ?_
          · exact pushItems_length_le desired acc items hacc
          · rw [Prod.ext_iff]
            exact ⟨rfl, h.2⟩
    · rw [if_neg hc] at h
      simp only [Prod.mk.injEq, Option.some_inj, Except.ok.injEq] at h
      rw [← h.2]
      exact hacc

/-- `requestsView` unfolding on a request event. -/
theorem requestsView_request (p a : Nat) (tr : List SearchEv) :
    requestsView (SearchEv.request p a :: tr) = (p, a) :: requestsView tr := rfl

/-- `requestsView` skips backoff sleeps. -/
theorem requestsView_backoff (a s : Nat) (tr : List SearchEv) :
    requestsView (SearchEv.sleepBackoff a s :: tr) = requestsView tr := rfl

/-- `requestsView` skips retry-after sleeps. -/
theorem requestsView_retryAfter (s : Nat) (tr : List SearchEv) :
    requestsView (SearchEv.sleepRetryAfter s :: tr) = requestsView tr := rfl

/-- The retry loop's requests are exactly the consecutive attempt counters
starting at the entry value and always carry the loop's own page number: the
same page is retried with the counter stepping by one. -/
theorem pageAttempts_requests (page : Nat) (resps : List HttpResp)
    (a0 : Nat) :
    requestsView (pageAttempts page resps a0).1 =
      (List.range' a0 (reqCount resps)).map (fun a => (page, a)) := by
  induction resps generalizing a0 with
  | nil => rfl
  | cons r rest ih =>
    cases r with
    | ok items => rfl
    | otherError status => rfl
    | rateLimited ra =>
      have hstep : reqCount (HttpResp.rateLimited ra :: rest) =
          reqCount rest + 1 := by
        rw [reqCount]
        omega
      cases ra with
      | some sec =>
        rw [pageAttempts]
        simp only [requestsView_request, requestsView_retryAfter, ih, hstep,
          List.range'_succ, List.map_cons]
      | none =>
        rw [pageAttempts]
        simp only [requestsView_request, requestsView_backoff, ih, hstep,
          List.range'_succ, List.map_cons]

/-- Every backoff sleep in a retry run sleeps exactly `2^(min attempt 6)`
seconds for its (incremented) attempt counter, hence at most 64 seconds. -/
theorem pageAttempts_backoff_sleeps (page : Nat) (resps : List HttpResp)
    (a0 a s : Nat)
    (hmem : SearchEv.sleepBackoff a s ∈ (pageAttempts page resps a0).1) :
    s = 2 ^ min a 6 ∧ s ≤ 64 ∧ a0 < a := by
  induction resps generalizing a0 with
  | nil => simp [pageAttempts] at hmem
  | cons r rest ih =>
    cases r with
    | ok items => simp [pageAttempts] at hmem
    | otherError status => simp [pageAttempts] at hmem
    | rateLimited ra =>
      cases ra with
      | some sec =>
        rw [pageAttempts] at hmem
        simp only [List.mem_cons] at hmem
        rcases hmem with h | h | h
        · exact absurd h (by simp)
        · exact absurd h (by simp)
        · obtain ⟨h1, h2, h3⟩ := ih (a0 + 1) h
          exact ⟨h1, h2, by omega⟩
      | none =>
        rw [pageAttempts] at hmem
        simp only [List.mem_cons] at hmem
        rcases hmem with h | h | h
        · exact absurd h (by simp)
        · injection h with ha hs
          subst ha
          subst hs
          refine ⟨rfl, ?_, by omega⟩
          calc 2 ^ min (a0 + 1) 6 ≤ 2 ^ 6 :=
                Nat.pow_le_pow_right (by norm_num) (min_le_right _ 6)
            _ = 64 := by norm_num
        · obtain ⟨h1, h2, h3⟩ := ih (a0 + 1) h
          exact ⟨h1, h2, by omega⟩

/-- Every retry-after sleep in a retry run sleeps a duration carried by a
`Retry-After` header of one of the page's 403/429 responses. -/
theorem pageAttempts_retryAfter_sleeps (page : Nat) (resps : List HttpResp)
    (a0 s : Nat)
    (hmem : SearchEv.sleepRetryAfter s ∈ (pageAttempts page resps a0).1) :
    HttpResp.rateLimited (some s) ∈ resps := by
  induction resps generalizing a0 with
  | nil => simp [pageAttempts] at hmem
  | cons r rest ih =>
    cases r with
    | ok items => simp [pageAttempts] at hmem
    | otherError status => simp [pageAttempts] at hmem
    | rateLimited ra =>
      cases ra with
      | some sec =>
        rw [pageAttempts] at hmem
        simp only [List.mem_cons] at hmem
        rcases hmem with h | h | h
        · exact absurd h (by simp)
        · injection h with hs
          subst hs
          exact List.mem_cons_self _ _
        · exact List.mem_cons_of_mem _ (ih (a0 + 1) h)
      | none =>
        rw [pageAttempts] at hmem
        simp only [List.mem_cons] at hmem
        rcases hmem with h | h | h
        · exact absurd h (by simp)
        · exact absurd h (by simp)
        · exact List.mem_cons_of_mem _ (ih (a0 + 1) h)

/-- The outer loop's trace is the concatenation of per-page retry runs, one
for each processed page (a prefix of the scheduled pages), each started
with attempt counter 0. -/
theorem searchPagesLoop_trace (respOf : Nat → List HttpResp)
    (desired perPage : Nat) (pages : List Nat) (acc : List RepositoryInfo) :
    ∃ processed : List Nat, List.IsPrefix processed pages ∧
      (searchPagesLoop respOf desired perPage pages acc).1 =
        (processed.map (fun p => (pageAttempts p (respOf p) 0).1)).flatten := by
  induction pages generalizing acc with
  | nil => exact ⟨[], List.nil_prefix, rfl⟩
  | cons page rest ih =>
    rw [searchPagesLoop]
    by_cases hc : acc.length < desired
    · rw [if_pos hc]
      split
      · refine ⟨[page], ⟨rest, rfl⟩, ?_⟩
        simp
      · refine ⟨[page], ⟨rest, rfl⟩, ?_⟩
        simp
      · rename_i items heq
        split
        · refine ⟨[page], ⟨rest, rfl⟩, ?_⟩
          simp
        · obtain ⟨pr, ⟨t, ht⟩, htr⟩ := ih (pushItems desired acc items)
          refine ⟨page :: pr, ⟨t, by rw [List.cons_append, ht]⟩, ?_⟩
          simp only [List.map_cons, List.flatten_cons, htr]
    · rw [if_neg hc]
      exact ⟨[], List.nil_prefix, rfl⟩

/-! ### Search-client claim theorems -/

/-- C2: whenever discovery returns a repository list (for any limit and any
response streams), that list has at most `min limit 1000` entries. -/
theorem c2_discovery_limit (limit : Nat) (respOf : Nat → List HttpResp)
    (tr : List SearchEv) (r : List RepositoryInfo)
    (h : search_rust_repositories limit respOf = (tr, some (Except.ok r))) :
    r.length ≤ min limit 1000 := by
  unfold search_rust_repositories at h
  by_cases hp : searchPerPage limit = 0
  · rw [if_pos hp] at h
    simp at h
  · rw [if_neg hp] at h
    simp only [Prod.mk.injEq] at h
    obtain ⟨htr, hmap⟩ := h
    cases h2 : (searchPagesLoop respOf (searchDesired limit)
        (searchPerPage limit) (List.range' 1 (searchMaxPages limit)) []).2 with
    | none => rw [h2] at hmap; simp at hmap
    | some e =>
      rw [h2] at hmap
      cases e with
      | error status => simp [Except.mapError] at hmap
      | ok l =>
        simp only [Option.map_some', Option.some_inj, Except.mapError,
          Except.ok.injEq] at hmap
        have hrun : searchPagesLoop respOf (searchDesired limit)
            (searchPerPage limit) (List.range' 1 (searchMaxPages limit)) [] =
            ((searchPagesLoop respOf (searchDesired limit)
              (searchPerPage limit)
              (List.range' 1 (searchMaxPages limit)) []).1,
             some (Except.ok r)) := by
          rw [Prod.ext_iff]
          exact ⟨rfl, by rw [h2, hmap]⟩
        exact searchPagesLoop_ok_length respOf (searchDesired limit)
          (searchPerPage limit) (List.range' 1 (searchMaxPages limit)) []
          (by simp) _ r hrun

/-- Witness for `c2_discovery_limit`: one successful single-page run with
`limit = 5` collecting one repository. -/
theorem c2_discovery_limit_witness :
    ([c2Info] : List RepositoryInfo).length ≤ min 5 1000 :=
  c2_discovery_limit 5 (fun _ => [HttpResp.ok [c2Repo]])
    [SearchEv.request 1 0] [c2Info] (by rfl)

/-- C8: on HTTP 403/429, (i) every backoff sleep (no `Retry-After`) lasts
`2^(min attempt 6)` seconds for its incremented attempt counter — at most
64 seconds; (ii) every retry-after sleep lasts a duration carried by a
`Retry-After` header of that page's responses, and a 403/429 with
`Retry-After` steps to a retry of the *same* page with the counter
incremented (the step equation); (iii) the requests of one page's retry run
are that page's number with consecutive attempt counters starting at the
entry value; and (iv) the whole search trace is a concatenation of per-page
retry runs each entered with the attempt counter reset to 0, so the page
counter never advances during retries. -/
theorem c8_rate_limit_backoff (page : Nat) (resps : List HttpResp)
    (a0 a s sec : Nat) (respOf : Nat → List HttpResp) (desired perPage : Nat)
    (pages : List Nat) (acc : List RepositoryInfo) :
    (SearchEv.sleepBackoff a s ∈ (pageAttempts page resps a0).1 →
      s = 2 ^ min a 6 ∧ s ≤ 64 ∧ a0 < a) ∧
    (SearchEv.sleepRetryAfter s ∈ (pageAttempts page resps a0).1 →
      HttpResp.rateLimited (some s) ∈ resps) ∧
    (pageAttempts page (HttpResp.rateLimited (some sec) :: resps) a0 =
      (SearchEv.request page a0 :: SearchEv.sleepRetryAfter sec ::
         (pageAttempts page resps (a0 + 1)).1,
       (pageAttempts page resps (a0 + 1)).2)) ∧
    (requestsView (pageAttempts page resps a0).1 =
      (List.range' a0 (reqCount resps)).map (fun a2 => (page, a2))) ∧
    (∃ processed : List Nat, List.IsPrefix processed pages ∧
      (searchPagesLoop respOf desired perPage pages acc).1 =
        (processed.map (fun p => (pageAttempts p (respOf p) 0).1)).flatten) :=
  ⟨pageAttempts_backoff_sleeps page resps a0 a s,
   pageAttempts_retryAfter_sleeps page resps a0 s,
   rfl,
   pageAttempts_requests page resps a0,
   searchPagesLoop_trace respOf desired perPage pages acc⟩

/-- Witness for `c8_rate_limit_backoff`: a page stream with one bare 429
(backoff `2^1 = 2`s) and one 429 carrying `Retry-After: 7`. -/
theorem c8_rate_limit_backoff_witness :
    ((2 : Nat) = 2 ^ min 1 6 ∧ (2 : Nat) ≤ 64 ∧ (0 : Nat) < 1) ∧
    HttpResp.rateLimited (some 7) ∈
      [HttpResp.rateLimited none, HttpResp.rateLimited (some 7),
       HttpResp.ok []] :=
  ⟨(c8_rate_limit_backoff 1
      [HttpResp.rateLimited none, HttpResp.rateLimited (some 7),
       HttpResp.ok []] 0 1 2 7 (fun _ => []) 0 0 [] []).1 (by decide),
   (c8_rate_limit_backoff 1
      [HttpResp.rateLimited none, HttpResp.rateLimited (some 7),
       HttpResp.ok []] 0 1 7 7 (fun _ => []) 0 0 [] []).2.1 (by decide)⟩

end DeriveAnalysis

namespace DeriveAnalysis

/-! ### Summary-aggregation helper lemmas -/

/-- One bump adjusts exactly the bumped key's count. -/
theorem getCount_bumpCount (m : List (String × Nat)) (k j : String) :
    getCount (bumpCount m k) j =
      if j = k then getCount m j + 1 else getCount m j := by
  induction m with
  | nil =>
    by_cases hj : j = k
    · simp [bumpCount, getCount, hj]
    · have hj2 : ¬k = j := fun h => hj h.symm
      simp [bumpCount, getCount, hj, hj2]
  | cons a rest ih =>
    obtain ⟨k2, c⟩ := a
    by_cases hk : k2 = k
    · subst hk
      by_cases hj : k2 = j
      · subst hj
        simp [bumpCount, getCount]
      · have hj2 : ¬j = k2 := fun h => hj h.symm
        simp [bumpCount, getCount, hj, hj2]
    · by_cases hj : k2 = j
      · subst hj
        simp [bumpCount, getCount, hk]
      · simp [bumpCount, getCount, hk, hj, ih]

/-- Keys after a bump: the old keys plus the bumped key. -/
theorem mem_keys_bumpCount (m : List (String × Nat)) (k j : String) :
    j ∈ (bumpCount m k).map Prod.fst ↔ j ∈ m.map Prod.fst ∨ j = k := by
  induction m with
  | nil => simp [bumpCount]
  | cons a rest ih =>
    obtain ⟨k2, c⟩ := a
    by_cases hk : k2 = k
    · subst hk
      rw [bumpCount, if_pos rfl]
      simp only [List.map_cons, List.mem_cons]
      tauto
    · rw [bumpCount, if_neg hk]
      simp only [List.map_cons, List.mem_cons, ih]
      tauto

/-- Bumping preserves key distinctness. -/
theorem nodup_keys_bumpCount (m : List (String × Nat)) (k : String)
    (h : (m.map Prod.fst).Nodup) : ((bumpCount m k).map Prod.fst).Nodup := by
  induction m with
  | nil => simp [bumpCount]
  | cons a rest ih =>
    obtain ⟨k2, c⟩ := a
    simp only [List.map_cons, List.nodup_cons] at h
    by_cases hk : k2 = k
    · subst hk
      rw [bumpCount, if_pos rfl]
      simp only [List.map_cons, List.nodup_cons]
      exact h
    · rw [bumpCount, if_neg hk]
      simp only [List.map_cons, List.nodup_cons]
      refine ⟨?_, ih h.2⟩
      rw [mem_keys_bumpCount]
      rintro (hmem | hmem)
      · exact h.1 hmem
      · exact hk hmem

/-- The counting fold computes occurrence counts, relative to any
accumulator. -/
theorem getCount_foldl_bumpCount (ks : List String)
    (acc : List (String × Nat)) (j : String) :
    getCount (ks.foldl bumpCount acc) j = getCount acc j + ks.count j := by
  induction ks generalizing acc with
  | nil => simp
  | cons k rest ih =>
    rw [List.foldl_cons, ih, getCount_bumpCount, List.count_cons]
    by_cases hj : j = k
    · simp only [hj, if_pos rfl, beq_self_eq_true, if_true]
      omega
    · have hj2 : (k == j) = false :=
        beq_eq_false_iff_ne.mpr (fun h => hj h.symm)
      simp only [hj, hj2, Bool.false_eq_true, if_false]
      omega

/-- Keys of the counting fold: accumulator keys plus occurring keys. -/
theorem mem_keys_foldl_bumpCount (ks : List String)
    (acc : List (String × Nat)) (j : String) :
    j ∈ (ks.foldl bumpCount acc).map Prod.fst ↔
      j ∈ acc.map Prod.fst ∨ j ∈ ks := by
  induction ks generalizing acc with
  | nil => simp
  | cons k rest ih =>
    rw [List.foldl_cons, ih, mem_keys_bumpCount]
    simp only [List.mem_cons]
    tauto

/-- The counting fold keeps keys distinct. -/
theorem nodup_keys_foldl_bumpCount (ks : List String)
    (acc : List (String × Nat)) (h : (acc.map Prod.fst).Nodup) :
    ((ks.foldl bumpCount acc).map Prod.fst).Nodup := by
  induction ks generalizing acc with
  | nil => exact h
  | cons k rest ih =>
    rw [List.foldl_cons]
    exact ih _ (nodup_keys_bumpCount acc k h)

/-- In a map with distinct keys, a member pair carries the stored count. -/
theorem getCount_of_mem (m : List (String × Nat))
    (hnodup : (m.map Prod.fst).Nodup) (k : String) (c : Nat)
    (hm : (k, c) ∈ m) : getCount m k = c := by
  induction m with
  | nil => simp at hm
  | cons a rest ih =>
    obtain ⟨k2, c2⟩ := a
    simp only [List.map_cons, List.nodup_cons] at hnodup
    rcases List.mem_cons.mp hm with h | h
    · obtain ⟨h1, h2⟩ := Prod.mk.injEq .. ▸ h
      rw [getCount, if_pos ((congrArg Prod.fst h).symm : k2 = k)]
      exact (congrArg Prod.snd h).symm
    · rw [getCount]
      have hne : k2 ≠ k := by
        intro he
        subst he
        exact hnodup.1 (List.mem_map.mpr ⟨(k2, c), h, rfl⟩)
      rw [if_neg hne]
      exact ih hnodup.2 h

/-- Two nodup lists with the same members have the same length; applied to
the fold's keys versus the occurrence list, via `Finset` cardinality. -/
theorem buildCounts_length (ks : List String) :
    (buildCounts ks).length = ks.dedup.length := by
  have h1 : ((buildCounts ks).map Prod.fst).Nodup :=
    nodup_keys_foldl_bumpCount ks [] (by simp)
  have h2 : ∀ j, j ∈ (buildCounts ks).map Prod.fst ↔ j ∈ ks := by
    intro j
    rw [buildCounts, mem_keys_foldl_bumpCount]
    simp
  have h3 : ((buildCounts ks).map Prod.fst).toFinset = ks.toFinset := by
    ext j
    simp only [List.mem_toFinset]
    exact h2 j
  have h4 := List.toFinset_card_of_nodup h1
  rw [← List.length_map (buildCounts ks) Prod.fst, ← h4, h3,
    List.card_toFinset]

/-- A pair of the counting fold stores its key's occurrence count. -/
theorem mem_buildCounts_count (ks : List String) (k : String) (c : Nat)
    (hm : (k, c) ∈ buildCounts ks) : c = ks.count k := by
  have h1 : ((buildCounts ks).map Prod.fst).Nodup :=
    nodup_keys_foldl_bumpCount ks [] (by simp)
  have h2 := getCount_of_mem (buildCounts ks) h1 k c hm
  have h3 := getCount_foldl_bumpCount ks [] k
  rw [buildCounts] at h2
  rw [h2] at h3
  simpa [getCount] using h3

/-- Membership through the descending insertion. -/
theorem mem_insertByCountDesc (x y : String × Nat) (l : List (String × Nat)) :
    y ∈ insertByCountDesc x l ↔ y = x ∨ y ∈ l := by
  induction l with
  | nil => simp [insertByCountDesc]
  | cons a rest ih =>
    rw [insertByCountDesc]
    split
    · simp [List.mem_cons]
    · simp only [List.mem_cons, ih]
      tauto

/-- Inserting preserves the descending-count invariant. -/
theorem pairwise_insertByCountDesc (x : String × Nat)
    (l : List (String × Nat))
    (h : List.Pairwise (fun a b => b.2 ≤ a.2) l) :
    List.Pairwise (fun a b => b.2 ≤ a.2) (insertByCountDesc x l) := by
  induction l with
  | nil => simp [insertByCountDesc]
  | cons a rest ih =>
    rw [List.pairwise_cons] at h
    rw [insertByCountDesc]
    split
    · rename_i hle
      rw [List.pairwise_cons]
      constructor
      · intro z hz
        rcases List.mem_cons.mp hz with hz1 | hz2
        · rw [hz1]
          exact hle
        · exact le_trans (h.1 z hz2) hle
      · rw [List.pairwise_cons]
        exact h
    · rename_i hgt
      rw [List.pairwise_cons]
      constructor
      · intro z hz
        rcases (mem_insertByCountDesc x z rest).mp hz with hz1 | hz2
        · rw [hz1]
          omega
        · exact h.1 z hz2
      · exact ih h.2

/-- Insertion grows the length by one. -/
theorem length_insertByCountDesc (x : String × Nat)
    (l : List (String × Nat)) :
    (insertByCountDesc x l).length = l.length + 1 := by
  induction l with
  | nil => rfl
  | cons a rest ih =>
    rw [insertByCountDesc]
    split
    · simp
    · simp [ih]

/-- The sort keeps exactly the original pairs (as a set). -/
theorem mem_sortByCountDesc (l : List (String × Nat)) (y : String × Nat) :
    y ∈ sortByCountDesc l ↔ y ∈ l := by
  induction l with
  | nil => simp [sortByCountDesc]
  | cons a rest ih =>
    rw [sortByCountDesc, List.foldr_cons]
    rw [show List.foldr insertByCountDesc [] rest = sortByCountDesc rest
      from rfl]
    rw [mem_insertByCountDesc, ih, List.mem_cons]

/-- The sort output is pairwise descending by count. -/
theorem pairwise_sortByCountDesc (l : List (String × Nat)) :
    List.Pairwise (fun a b => b.2 ≤ a.2) (sortByCountDesc l) := by
  induction l with
  | nil => simp [sortByCountDesc]
  | cons a rest ih =>
    rw [sortByCountDesc, List.foldr_cons]
    exact pairwise_insertByCountDesc a _ ih

/-- The sort preserves length. -/
theorem length_sortByCountDesc (l : List (String × Nat)) :
    (sortByCountDesc l).length = l.length := by
  induction l with
  | nil => rfl
  | cons a rest ih =>
    rw [sortByCountDesc, List.foldr_cons]
    rw [show List.foldr insertByCountDesc [] rest = sortByCountDesc rest
      from rfl]
    rw [length_insertByCountDesc, ih, List.length_cons]

/-- The per-statement counting loop counts list length. -/
theorem foldl_add_one_eq_length (l : List DeriveStatement) (n : Nat) :
    l.foldl (fun m _ => m + 1) n = n + l.length := by
  induction l generalizing n with
  | nil => simp
  | cons a rest ih =>
    rw [List.foldl_cons, ih, List.length_cons]
    omega

end DeriveAnalysis

namespace DeriveAnalysis

/-- C9: for every findings list, the summary has `total_derive_statements`
equal to the number of findings, `total_repositories` equal to the number
of distinct repository keys, `total_unique_derives` equal to the number of
distinct identifiers, and the two top tables each hold at most 20 pairs
whose counts are the true occurrence counts, ordered by count
descending. -/
theorem c9_summary_report (derives : List DeriveStatement) :
    (save_summary derives).total_derive_statements = derives.length ∧
    (save_summary derives).total_repositories =
      (derives.map (fun d => d.repository)).dedup.length ∧
    (save_summary derives).total_unique_derives =
      (derives.flatMap (fun d => d.derives)).dedup.length ∧
    (save_summary derives).most_common_derives.length ≤ 20 ∧
    (save_summary derives).repositories_by_derive_count.length ≤ 20 ∧
    (∀ kc ∈ (save_summary derives).most_common_derives,
      kc.2 = (derives.flatMap (fun d => d.derives)).count kc.1) ∧
    (∀ kc ∈ (save_summary derives).repositories_by_derive_count,
      kc.2 = (derives.map (fun d => d.repository)).count kc.1) ∧
    List.Pairwise (fun a b => b.2 ≤ a.2)
      (save_summary derives).most_common_derives ∧
    List.Pairwise (fun a b => b.2 ≤ a.2)
      (save_summary derives).repositories_by_derive_count := by
  refine ⟨?_, ?_, ?_, ?_, ?_, ?_, ?_, ?_, ?_⟩
  · show derives.foldl (fun m _ => m + 1) 0 = derives.length
    rw [foldl_add_one_eq_length]
    omega
  · show (sortByCountDesc
        (buildCounts (derives.map (fun d => d.repository)))).length = _
    rw [length_sortByCountDesc, buildCounts_length]
  · show (sortByCountDesc
        (buildCounts (derives.flatMap (fun d => d.derives)))).length = _
    rw [length_sortByCountDesc, buildCounts_length]
  · show ((sortByCountDesc
        (buildCounts (derives.flatMap (fun d => d.derives)))).take 20).length
        ≤ 20
    rw [List.length_take]
    exact Nat.min_le_left _ _
  · show ((sortByCountDesc
        (buildCounts (derives.map (fun d => d.repository)))).take 20).length
        ≤ 20
    rw [List.length_take]
    exact Nat.min_le_left _ _
  · intro kc hkc
    have h1 : kc ∈ sortByCountDesc
        (buildCounts (derives.flatMap (fun d => d.derives))) :=
      List.take_subset _ _ hkc
    have h2 := (mem_sortByCountDesc _ kc).mp h1
    obtain ⟨k, c⟩ := kc
    exact mem_buildCounts_count _ k c h2
  · intro kc hkc
    have h1 : kc ∈ sortByCountDesc
        (buildCounts (derives.map (fun d => d.repository))) :=
      List.take_subset _ _ hkc
    have h2 := (mem_sortByCountDesc _ kc).mp h1
    obtain ⟨k, c⟩ := kc
    exact mem_buildCounts_count _ k c h2
  · exact List.Pairwise.sublist (List.take_sublist _ _)
      (pairwise_sortByCountDesc _)
  · exact List.Pairwise.sublist (List.take_sublist _ _)
      (pairwise_sortByCountDesc _)

/-- Witness for `c9_summary_report` at `c9Example` (three findings, two
repositories, `Clone` occurring three times). -/
theorem c9_summary_report_witness :
    (save_summary c9Example).total_derive_statements = c9Example.length ∧
    ("Clone", 3) ∈ (save_summary c9Example).most_common_derives ∧
    (("Clone", 3) : String × Nat).2 =
      (c9Example.flatMap (fun d => d.derives)).count ("Clone", 3).1 :=
  ⟨(c9_summary_report c9Example).1, by decide,
   (c9_summary_report c9Example).2.2.2.2.2.1 ("Clone", 3) (by decide)⟩

end DeriveAnalysis
